import Mathlib

/-!
Shallow embedding of the semantic-map SOM training engine
(src/topo.cpp, src/som.cpp, src/smap.cpp, src/data.hpp) and proofs about it.

Conventions:
* C++ machine floats are modelled as exact rationals (`ℚ`) where the code is
  pure arithmetic, and as reals (`ℝ`) where transcendental functions
  (`std::pow`, `std::exp`) appear; the transcendental function itself is a
  parameter of the embedded definition so the definitions stay executable,
  and the theorems instantiate it with `Real.rpow` / `Real.exp`.
* C++ unsigned integers (`CellIndexType`, `IndexType`, ...) are modelled as
  `ℕ`, the signed `int` coordinates of the distance functions as `ℤ`.
* Arrays are `List`s; `List.getD` models pointer indexing.
-/

namespace SemMap

/-- `utils.hpp`: `template<class T> T squared(T x) { return x * x; }` -/
def squared {α : Type} [Mul α] (x : α) : α := x * x

/-- Floor square root on `ℕ`, by structural recursion (kernel-reducible). -/
def isqrt : ℕ → ℕ
  | 0 => 0
  | n + 1 =>
    let r := isqrt n
    if (r + 1) * (r + 1) ≤ n + 1 then r + 1 else r

/-- Exact model of `std::ceil(std::sqrt(n))` on a natural number `n`
(`topo.cpp` uses it on sums of squares of lattice offsets, where the
`double` computation is exact). -/
def ceilSqrt (n : ℕ) : ℕ :=
  if isqrt n * isqrt n = n then isqrt n else isqrt n + 1

/-- `topo.hpp`: `typedef CellIndexType (*DistanceFunction) (int, int, int, int, int, int);`
arguments are `(row1, col1, row2, col2, height, width)`. -/
def DistFun : Type := ℤ → ℤ → ℤ → ℤ → ℤ → ℤ → ℤ

/-- `topo.cpp` `dist_circle_plane`. -/
def dist_circle_plane : DistFun := fun y x i j _ _ =>
  (ceilSqrt ((i - y).natAbs * (i - y).natAbs + (j - x).natAbs * (j - x).natAbs) : ℤ)

/-- `topo.cpp` `dist_circle_torus`. -/
def dist_circle_torus : DistFun := fun y x i j height width =>
  let dx : ℤ := |j - x|
  let dy : ℤ := |i - y|
  (ceilSqrt ((squared (min dx (width - dx)) + squared (min dy (height - dy))).toNat) : ℤ)

/-- `topo.cpp` `dist_hexa_plane`: the C++ `(row - (row & 1)) / 2` term
(`row & 1` is the parity bit, the quotient of the even difference is exact). -/
def hexaShift (row : ℤ) : ℤ := (row - row % 2) / 2

/-- `topo.cpp` `dist_hexa_plane`. -/
def dist_hexa_plane : DistFun := fun row1 col1 row2 col2 _ _ =>
  let a : ℤ := |row1 - row2|
  let b : ℤ := |col1 - col2 - hexaShift row1 + hexaShift row2|
  let c : ℤ := |col1 - col2 + row1 - row2 - hexaShift row1 + hexaShift row2|
  max a (max b c)

/-- `topo.cpp` `dist_hexa_torus`: minimum of `dist_hexa_plane` over the seven
wrap-around offset combinations appearing in the source. -/
def dist_hexa_torus : DistFun := fun row1 col1 row2 col2 height width =>
  min (dist_hexa_plane row1 col1 row2 col2 0 0)
    (min (dist_hexa_plane row1 col1 (row2 + height) col2 0 0)
      (min (dist_hexa_plane row1 col1 row2 (col2 + width) 0 0)
        (min (dist_hexa_plane row1 col1 (row2 + height) (col2 + width) 0 0)
          (min (dist_hexa_plane (row1 + height) col1 row2 col2 0 0)
            (min (dist_hexa_plane row1 (col1 + width) row2 col2 0 0)
              (dist_hexa_plane (row1 + height) (col1 + width) row2 col2 0 0))))))

/-- `topo.cpp` `dist_rect_plane`. -/
def dist_rect_plane : DistFun := fun y x i j _ _ =>
  max |i - y| |j - x|

/-- `topo.cpp` `dist_rect_torus`. -/
def dist_rect_torus : DistFun := fun y x i j height width =>
  let dx : ℤ := |j - x|
  let dy : ℤ := |i - y|
  max (min dx (width - dx)) (min dy (height - dy))

/-- `topo.hpp` `enum GlobalTopology`. -/
inductive GlobalTopology | TORUS | MOEBIUS | TUBE | PLANE
deriving DecidableEq

/-- `topo.hpp` `enum LocalTopology`. -/
inductive LocalTopology | RECT | HEXA | CIRC
deriving DecidableEq

/-- `topo.cpp` `distance_function`: selection of the distance function by the
`(global, local)` topology pair; unimplemented pairs throw, modelled by `none`. -/
def distance_function : GlobalTopology → LocalTopology → Option DistFun
  | GlobalTopology.PLANE, LocalTopology.CIRC => some dist_circle_plane
  | GlobalTopology.PLANE, LocalTopology.HEXA => some dist_hexa_plane
  | GlobalTopology.PLANE, LocalTopology.RECT => some dist_rect_plane
  | GlobalTopology.TORUS, LocalTopology.CIRC => some dist_circle_torus
  | GlobalTopology.TORUS, LocalTopology.HEXA => some dist_hexa_torus
  | GlobalTopology.TORUS, LocalTopology.RECT => some dist_rect_torus
  | _, _ => none

/-- The concrete hexagonal plane distances of the repository's test suite. -/
theorem hexa_plane_test_distances :
    dist_hexa_plane 0 0 10 0 0 0 = 10 ∧ dist_hexa_plane 0 0 0 10 0 0 = 10
      ∧ dist_hexa_plane 0 0 10 10 0 0 = 15 := by
  refine ⟨by decide, by decide, by decide⟩

/-- The concrete hexagonal torus distances of the repository's test suite. -/
theorem hexa_torus_test_distances :
    dist_hexa_torus 0 0 9 0 10 10 = 1 ∧ dist_hexa_torus 0 0 0 9 10 10 = 1
      ∧ dist_hexa_torus 0 0 9 9 10 10 = 1 := by
  refine ⟨by decide, by decide, by decide⟩

/-! ## Sparse corpus matrix (`data.hpp`) -/

/-- `data.hpp` `BinarySparseMatrix`: CSR-style sparse binary matrix.
Weights (`u8`) and the lazily computed `_sum_of_squares` are stored as scalars
of the field `α` modelling `Float`. -/
structure BinarySparseMatrix (α : Type) where
  num_rows : ℕ
  num_cols : ℕ
  index_pointers : List ℕ
  indices : List ℕ
  weights : List α
  has_weights : Bool
  sum_of_squares : List α

variable {α : Type} [LinearOrderedCommRing α]

/-- `data.hpp` `num_indices_in_row`: `index_pointers[row + 1] - index_pointers[row]`. -/
def BinarySparseMatrix.num_indices_in_row (m : BinarySparseMatrix α) (row : ℕ) : ℕ :=
  m.index_pointers.getD (row + 1) 0 - m.index_pointers.getD row 0

/-- `data.hpp` `indices_in_row`: the slice of `indices` holding row `row`. -/
def BinarySparseMatrix.indices_in_row (m : BinarySparseMatrix α) (row : ℕ) : List ℕ :=
  (m.indices.drop (m.index_pointers.getD row 0)).take (m.num_indices_in_row row)

/-- The element at offset `k` from `weights_in_row(row)` (`data.hpp`), i.e.
`weights[index_pointers[row] + k]` of the global weights array; reads beyond
the array are modelled as 0. -/
def BinarySparseMatrix.weights_at (m : BinarySparseMatrix α) (row k : ℕ) : α :=
  m.weights.getD (m.index_pointers.getD row 0 + k) 0

/-! ## Codebook (`som.hpp` / `som.cpp`) -/

/-- The prefix of a row's index list below the cutoff: the scan loops in
`som.cpp` (`product`, `product_with_weights`, the batch-update inner loop)
`break` at the first index `≥ effective_input_dim`. -/
def below_cutoff (indices : List ℕ) (effective_input_dim : ℕ) : List ℕ :=
  indices.takeWhile (fun idx => decide (idx < effective_input_dim))

/-- `som.cpp` `product`: Σ `values[idx]` over the row's indices, breaking at
the first index `≥ effective_input_dim`. -/
def product (indices : List ℕ) (values : ℕ → α) (effective_input_dim : ℕ) : α :=
  ((below_cutoff indices effective_input_dim).map values).sum

/-- `som.cpp` `product_with_weights`: Σ `values[idx] * weights[idx]`
(the source indexes `weights` by the column index `idx`, not by the loop
position), breaking at the first index `≥ effective_input_dim`. -/
def product_with_weights (indices : List ℕ) (values weights : ℕ → α)
    (effective_input_dim : ℕ) : α :=
  ((below_cutoff indices effective_input_dim).map fun idx => values idx * weights idx).sum

/-- `utils.hpp` `vec_squared`: Σ of squares of the first `size` values. -/
def vec_squared (values : ℕ → α) (size : ℕ) : α :=
  ((List.range size).map fun i => squared (values i)).sum

/-- `data.hpp`: `MAX_REAL_DISTANCE = std::numeric_limits<Float>::max()`,
i.e. `FLT_MAX = 2^128 - 2^104`, exactly. -/
def MAX_REAL_DISTANCE : α := 2 ^ 128 - 2 ^ 104

/-- `som.hpp` `Codebook` (the fields used by the training engine). -/
structure Codebook (α : Type) where
  width : ℕ
  height : ℕ
  input_dim : ℕ
  global_topology : GlobalTopology
  local_topology : LocalTopology
  array : List α

/-- `num_cells = height * width`. -/
def Codebook.num_cells (cb : Codebook α) : ℕ := cb.height * cb.width

/-- The prototype slice `&array[base]` viewed as a function on offsets. -/
def Codebook.wvec (cb : Codebook α) (base : ℕ) : ℕ → α :=
  fun i => cb.array.getD (base + i) 0

/-- The surrogate distance computed by `Codebook::find_best_matching_units`
(`som.cpp:444-450`) for one `(row, cell)` pair: the prototype starts at
`cell * input_dim` and `w_squared` ranges over all `input_dim` dimensions. -/
def Codebook.bmu_distance (cb : Codebook α) (data : BinarySparseMatrix α)
    (effective_input_dim row cell : ℕ) : α :=
  let w := cb.wvec (cell * cb.input_dim)
  let w_squared := vec_squared w cb.input_dim
  if data.has_weights then
    w_squared - 2 * product_with_weights (data.indices_in_row row) w
      (data.weights_at row) effective_input_dim
  else
    w_squared - 2 * product (data.indices_in_row row) w effective_input_dim

/-- The surrogate distance computed by
`Codebook::find_best_and_next_best_matching_units` (`som.cpp:489-520`) for one
`(row, cell)` pair: the source takes the prototype pointer at
`cell_index * effective_input_dim` and sums `w_squared` over
`effective_input_dim` dimensions, then adds `_sum_of_squares[row]`. -/
def Codebook.dual_distance (cb : Codebook α) (data : BinarySparseMatrix α)
    (effective_input_dim row cell : ℕ) : α :=
  let w := cb.wvec (cell * effective_input_dim)
  let w_squared := vec_squared w effective_input_dim
  (if data.has_weights then
    w_squared - 2 * product_with_weights (data.indices_in_row row) w
      (data.weights_at row) effective_input_dim
  else
    w_squared - 2 * product (data.indices_in_row row) w effective_input_dim)
    + data.sum_of_squares.getD row 0

/-- Modelled from the spec formula (for comparison with the code):
`dist(r,c) = ‖w_c‖² − 2·⟨w_c, x_r⟩ + ‖x_r‖²` for an unweighted row, where
`w_c` is cell `c`'s prototype vector (the slice starting at `c * input_dim`),
and the inner product uses only the row's sparse indices below the cutoff. -/
def Codebook.spec_dual_distance (cb : Codebook α) (data : BinarySparseMatrix α)
    (effective_input_dim row cell : ℕ) : α :=
  let w := cb.wvec (cell * cb.input_dim)
  vec_squared w cb.input_dim
    - 2 * product (data.indices_in_row row) w effective_input_dim
    + data.sum_of_squares.getD row 0

/-- One row-visit of the single BMU search inner loop (`som.cpp:432-457`):
skip empty rows and rows whose first index is out of range; otherwise compare
the surrogate distance against the row's current best. -/
def Codebook.fbmu_row_step (cb : Codebook α) (data : BinarySparseMatrix α)
    (effective_input_dim cell : ℕ) (st : List ℕ × List α) (row : ℕ) :
    List ℕ × List α :=
  match data.indices_in_row row with
  | [] => st
  | idx0 :: _ =>
    if effective_input_dim ≤ idx0 then st
    else
      let d := cb.bmu_distance data effective_input_dim row cell
      if d < st.2.getD row 0 then (st.1.set row cell, st.2.set row d) else st

/-- `som.cpp` `Codebook::find_best_matching_units`: outer loop over cells,
inner loop over rows; distances start at `MAX_REAL_DISTANCE` and the best
matching units at cell 0; when `need_correct_distances` is set the distances
are clamped at 0 after adding `_sum_of_squares[row]`. -/
def Codebook.find_best_matching_units (cb : Codebook α) (data : BinarySparseMatrix α)
    (train_vocab_cutoff : ℕ) (need_correct_distances : Bool) : List ℕ × List α :=
  let effective_input_dim := if 0 < train_vocab_cutoff then train_vocab_cutoff else data.num_cols
  let init : List ℕ × List α :=
    (List.replicate data.num_rows 0, List.replicate data.num_rows MAX_REAL_DISTANCE)
  let st := (List.range cb.num_cells).foldl
    (fun st cell => (List.range data.num_rows).foldl
      (cb.fbmu_row_step data effective_input_dim cell) st) init
  if need_correct_distances then
    (st.1, (List.range data.num_rows).map fun row =>
      max 0 (st.2.getD row 0 + data.sum_of_squares.getD row 0))
  else st

/-- The four arrays filled by the dual BMU search. -/
structure DualState (α : Type) where
  best_matching_units : List ℕ
  distances : List α
  next_best_matching_units : List ℕ
  next_distances : List α

/-- One row-visit of the dual BMU search inner loop (`som.cpp:497-529`):
when a new best is found, the previous best is shifted into the next-best
slot and the stored distance is clamped at 0. -/
def Codebook.fbnb_row_step (cb : Codebook α) (data : BinarySparseMatrix α)
    (effective_input_dim cell : ℕ) (st : DualState α) (row : ℕ) : DualState α :=
  match data.indices_in_row row with
  | [] => st
  | idx0 :: _ =>
    if effective_input_dim ≤ idx0 then st
    else
      let d := cb.dual_distance data effective_input_dim row cell
      if d < st.distances.getD row 0 then
        { best_matching_units := st.best_matching_units.set row cell,
          distances := st.distances.set row (max 0 d),
          next_best_matching_units :=
            st.next_best_matching_units.set row (st.best_matching_units.getD row 0),
          next_distances := st.next_distances.set row (st.distances.getD row 0) }
      else st

/-- `som.cpp` `Codebook::find_best_and_next_best_matching_units`: the
effective input dimension falls back to `input_dim` (not `num_cols`) when the
cutoff is 0. -/
def Codebook.find_best_and_next_best_matching_units (cb : Codebook α)
    (data : BinarySparseMatrix α) (train_vocab_cutoff : ℕ) : DualState α :=
  let effective_input_dim := if 0 < train_vocab_cutoff then train_vocab_cutoff else cb.input_dim
  let init : DualState α :=
    { best_matching_units := List.replicate data.num_rows 0,
      distances := List.replicate data.num_rows MAX_REAL_DISTANCE,
      next_best_matching_units := List.replicate data.num_rows 0,
      next_distances := List.replicate data.num_rows MAX_REAL_DISTANCE }
  (List.range cb.num_cells).foldl
    (fun st cell => (List.range data.num_rows).foldl
      (cb.fbnb_row_step data effective_input_dim cell) st) init

/-! ## Concrete instances exercising the BMU searches -/

/-- A 2-cell, 2-dimensional codebook (integer-valued prototypes, which
`Float` represents exactly): cell 0's prototype is `[0, 3]`, cell 1's is
`[1, 5]`. -/
def c1_codebook : Codebook ℤ :=
  { width := 2, height := 1, input_dim := 2,
    global_topology := GlobalTopology.PLANE, local_topology := LocalTopology.RECT,
    array := [0, 3, 1, 5] }

/-- A 1-row unweighted corpus whose single row has the single sparse index 0
(so `‖x‖² = 1`). -/
def c1_corpus : BinarySparseMatrix ℤ :=
  { num_rows := 1, num_cols := 2, index_pointers := [0, 1], indices := [0],
    weights := [], has_weights := false, sum_of_squares := [1] }

/-- A 4-cell, 1-dimensional codebook with prototypes `4, 3, 1, 2`, giving
row distances `(w-1)² + ... = 9, 4, 0, 1` in cell order. -/
def c2_codebook : Codebook ℤ :=
  { width := 4, height := 1, input_dim := 1,
    global_topology := GlobalTopology.PLANE, local_topology := LocalTopology.RECT,
    array := [4, 3, 1, 2] }

/-- A 1-row unweighted corpus over a 1-word vocabulary; the row is `{0}`. -/
def c2_corpus : BinarySparseMatrix ℤ :=
  { num_rows := 1, num_cols := 1, index_pointers := [0, 1], indices := [0],
    weights := [], has_weights := false, sum_of_squares := [1] }

set_option maxRecDepth 8000

/-- C1: with `trainVocabCutoff = 1` the dual BMU search takes the prototype
of cell 1 at offset `cell * effective_input_dim = 1` instead of
`cell * input_dim = 2`, so the surrogate distance it computes for
(row 0, cell 1) is `4`, while the claimed formula
`‖w_c‖² − 2⟨w_c, x_r⟩ + ‖x_r‖²` over cell 1's actual prototype `[1, 5]`
gives `25` (and `10` for cell 0); the distance the search records, `1`, is
the spec formula's value for no cell. The claim fails for cutoff > 0. -/
theorem C1_dual_search_cutoff_misaligned_prototype :
    c1_codebook.dual_distance c1_corpus 1 0 1 = 4 ∧
    c1_codebook.spec_dual_distance c1_corpus 1 0 1 = 25 ∧
    c1_codebook.spec_dual_distance c1_corpus 1 0 0 = 10 ∧
    (c1_codebook.find_best_and_next_best_matching_units c1_corpus 1).distances = [1] ∧
    (4 : ℤ) ≠ 25 ∧ (1 : ℤ) ≠ 10 ∧ (1 : ℤ) ≠ 25 := by
  decide

/-- C2: the dual search's two-minimum tracking only shifts the previous best
into the next-best slot when the best improves, so over surrogate distances
`9, 4, 0, 1` (cells 0..3) it returns nextBMU = cell 1 (distance 4), although
cell 3 ≠ BMU has the strictly smaller distance 1: nextBMU is not the argmin
excluding the BMU. -/
theorem C2_next_best_is_not_argmin_excluding_bmu :
    (c2_codebook.find_best_and_next_best_matching_units c2_corpus 0).best_matching_units = [2] ∧
    (c2_codebook.find_best_and_next_best_matching_units c2_corpus 0).next_best_matching_units = [1] ∧
    c2_codebook.dual_distance c2_corpus 1 0 3 < c2_codebook.dual_distance c2_corpus 1 0 1 ∧
    (3 : ℕ) ≠ 2 := by
  decide

/-- C8: the hexagonal torus distance takes the minimum over only seven
wrap-around offset combinations (the mixed-sign wraps are missing), and the
triangle inequality fails on the 4 × 4 lattice at `p = (0,3)`, `q = (0,0)`,
`r = (3,0)`: `d(p,r) = 3 > 1 + 1 = d(p,q) + d(q,r)`. So not every implemented
`(global, local)` distance is a metric on its lattice. -/
theorem C8_hexa_torus_triangle_inequality_fails :
    distance_function GlobalTopology.TORUS LocalTopology.HEXA = some dist_hexa_torus ∧
    dist_hexa_torus 0 3 3 0 4 4 = 3 ∧
    dist_hexa_torus 0 3 0 0 4 4 = 1 ∧
    dist_hexa_torus 0 0 3 0 4 4 = 1 ∧
    ¬ dist_hexa_torus 0 3 3 0 4 4 ≤
        dist_hexa_torus 0 3 0 0 4 4 + dist_hexa_torus 0 0 3 0 4 4 := by
  exact ⟨rfl, by decide, by decide, by decide, by decide⟩

/-! ## Neighbourhood (`som.cpp`) -/

/-- `som.cpp` `TopographicDiscontinuity`. -/
structure TopographicDiscontinuity where
  cell1 : ℕ
  cell2 : ℕ
  distance : ℕ
deriving DecidableEq

/-- `som.hpp` `Neighbourhood` (the fields used by the claims); `dist` is the
`distance` member selected by `distance_function(global, local)`. -/
structure Neighbourhood (α : Type) where
  height : ℕ
  width : ℕ
  dist : DistFun
  update_exponent : α
  initial_radius : ℕ
  values : List α

/-- `num_cells = height * width`. -/
def Neighbourhood.num_cells (nb : Neighbourhood α) : ℕ := nb.height * nb.width

/-- The `Neighbourhood` constructor (`som.cpp:24-45`): every cell's radius
starts at `initial_radius`. -/
def Neighbourhood.create (height width : ℕ) (dist : DistFun) (update_exponent : α)
    (initial_radius : ℕ) : Neighbourhood α :=
  { height := height, width := width, dist := dist,
    update_exponent := update_exponent, initial_radius := initial_radius,
    values := List.replicate (height * width) (initial_radius : α) }

/-- The lattice distance between two cells as computed by
`Neighbourhood::topographic_discontinuities` and
`Neighbourhood::radius_from_discontinuity`: coordinates are
`cell / width` and `cell % width`, and the distance function receives
`(height, width)` in that order. -/
def Neighbourhood.cell_distance (nb : Neighbourhood α) (cell1 cell2 : ℕ) : ℤ :=
  nb.dist (cell1 / nb.width) (cell1 % nb.width) (cell2 / nb.width) (cell2 % nb.width)
    nb.height nb.width

/-- `som.cpp` `Neighbourhood::topographic_discontinuities`: one entry per row
whose best and next-best matching cells are more than one lattice step
apart. -/
def Neighbourhood.topographic_discontinuities (nb : Neighbourhood α)
    (best_matching_units next_best_matching_units : List ℕ) (num_rows : ℕ) :
    List TopographicDiscontinuity :=
  (List.range num_rows).filterMap fun row =>
    let cell1 := best_matching_units.getD row 0
    let cell2 := next_best_matching_units.getD row 0
    let d := nb.cell_distance cell1 cell2
    if 1 < d then some ⟨cell1, cell2, d.toNat⟩ else none

/-- `som.cpp` `Neighbourhood::radius_from_discontinuity` (the `CellIndexType`
subtraction `distance - min(d1, d2)` is guarded by `min(d1, d2) < distance`,
so natural subtraction is exact). -/
def Neighbourhood.radius_from_discontinuity (nb : Neighbourhood α) (cell_index : ℕ)
    (disc : TopographicDiscontinuity) : ℕ :=
  let d1 := (nb.cell_distance cell_index disc.cell1).toNat
  let d2 := (nb.cell_distance cell_index disc.cell2).toNat
  if max d1 d2 ≤ disc.distance then disc.distance
  else if min d1 d2 < disc.distance then disc.distance - min d1 d2
  else 1

/-- `som.cpp` `Neighbourhood::update`, with `std::pow` passed in as `rpow`:
each cell's radius becomes `pow(r, update_exponent)`, raised to the
discontinuity-derived lower bound when `respect_lower_bound` is set; the
return value is the topographic error
`(discontinuities.size() + 1) / num_rows`. -/
def Neighbourhood.update (rpow : α → α → α) (nb : Neighbourhood α)
    (best_matching_units next_best_matching_units : List ℕ) (num_rows : ℕ)
    (respect_lower_bound : Bool) : Neighbourhood α × ℚ :=
  let discontinuities :=
    nb.topographic_discontinuities best_matching_units next_best_matching_units num_rows
  let values' := (List.range nb.num_cells).map fun cell_index =>
    let radius_lower_bound : α := discontinuities.foldl
      (fun acc disc => max acc ((nb.radius_from_discontinuity cell_index disc : ℕ) : α)) 1
    if respect_lower_bound then
      max radius_lower_bound (rpow (nb.values.getD cell_index 0) nb.update_exponent)
    else
      rpow (nb.values.getD cell_index 0) nb.update_exponent
  ({ nb with values := values' },
    ((discontinuities.length + 1 : ℕ) : ℚ) / (num_rows : ℚ))

/-- The training loop applies `Neighbourhood::update` once per epoch; this
iterates it over a list of per-epoch inputs
`(bmu, nextBmu, num_rows, respect_lower_bound)`. -/
def Neighbourhood.iterate_updates (rpow : α → α → α) (nb : Neighbourhood α) :
    List (List ℕ × List ℕ × ℕ × Bool) → Neighbourhood α
  | [] => nb
  | (b, nb2, n, r) :: rest =>
    ((nb.update rpow b nb2 n r).1).iterate_updates rpow rest

/-- `som.cpp`: `#define SQRT_E 1.6487212707001281468486507878142`
(the decimal literal from the source, exactly). -/
def SQRT_E : ℚ := 16487212707001281468486507878142 / 10 ^ 31

/-- `som.cpp` `Neighbourhood::influence`, with `std::exp` passed in as `exp`
(kept as a parameter so the definition is executable; the theorems use
`Real.exp`). The source calls
`this->distance(y1, x1, y2, x2, this->width, this->height)`, i.e. it passes
`width` in the distance function's `height` slot and vice versa. -/
def Neighbourhood.influence {F : Type} [LinearOrderedField F] (exp : F → F)
    (nb : Neighbourhood F) (source_cell target_cell : ℕ) : F :=
  let y1 := source_cell / nb.width
  let x1 := source_cell % nb.width
  let y2 := target_cell / nb.width
  let x2 := target_cell % nb.width
  let d : ℤ := nb.dist y1 x1 y2 x2 nb.width nb.height
  let r : F := nb.values.getD target_cell 0
  if (d : F) < r then
    (1 - (SQRT_E : F) * exp (-(1 / 2) * squared (d : F) / squared r)) / (r * (1 - (SQRT_E : F)))
  else 0

/-- Modelled from the spec (for comparison with the code): the influence
formula with `d` the lattice distance between the two cells computed with map
height `H` and width `W` passed in the distance function's height and width
slots. -/
def Neighbourhood.spec_influence {F : Type} [LinearOrderedField F] (exp : F → F)
    (nb : Neighbourhood F) (source_cell target_cell : ℕ) : F :=
  let d : ℤ := nb.cell_distance source_cell target_cell
  let r : F := nb.values.getD target_cell 0
  if (d : F) < r then
    (1 - (SQRT_E : F) * exp (-(1 / 2) * squared (d : F) / squared r)) / (r * (1 - (SQRT_E : F)))
  else 0

/-- A 2 × 3 rect/torus neighbourhood with all radii 1. -/
def c4_neighbourhood : Neighbourhood ℝ :=
  { height := 2, width := 3, dist := dist_rect_torus, update_exponent := 1,
    initial_radius := 1, values := [1, 1, 1, 1, 1, 1] }

/-- C4: on a non-square torus the swapped `(width, height)` arguments that
`Neighbourhood::influence` passes to the distance function change the lattice
distance. On the 2 × 3 rect/torus map with all radii 1, the cells `(0,0)` and
`(0,2)` are 1 step apart (so the claimed influence is 0 since `d < r` fails),
but the code computes `d = 0` and returns influence 1. -/
theorem C4_influence_swaps_height_and_width :
    Neighbourhood.influence Real.exp c4_neighbourhood 0 2 = 1 ∧
    Neighbourhood.spec_influence Real.exp c4_neighbourhood 0 2 = 0 ∧
    (1 : ℝ) ≠ 0 := by
  have hS : (SQRT_E : ℝ) ≠ 1 := by
    have h : SQRT_E ≠ 1 := by norm_num [SQRT_E]
    exact_mod_cast h
  have h1 : (1 : ℝ) - (SQRT_E : ℝ) ≠ 0 := sub_ne_zero.mpr (Ne.symm hS)
  have hd : dist_rect_torus 0 0 0 2 3 2 = (0 : ℤ) := by decide
  have hd2 : dist_rect_torus 0 0 0 2 2 3 = (1 : ℤ) := by decide
  refine ⟨?_, ?_, one_ne_zero⟩
  · show (if _ then _ else _) = (1 : ℝ)
    rw [if_pos]
    · simp only [c4_neighbourhood]
      norm_num [hd, squared, Real.exp_zero]
      exact div_self h1
    · simp [c4_neighbourhood, hd]
  · show (if _ then _ else _) = (0 : ℝ)
    rw [if_neg]
    simp [Neighbourhood.cell_distance, c4_neighbourhood, hd2]

/-- Counting helper: a `filterMap` that keeps `f b` exactly when `p b` holds
produces as many elements as there are elements satisfying `p`. -/
theorem length_filterMap_ite {β γ : Type} (l : List β) (p : β → Prop) [DecidablePred p]
    (f : β → γ) :
    (l.filterMap fun b => if p b then some (f b) else none).length
      = l.countP fun b => decide (p b) := by
  induction l with
  | nil => rfl
  | cons a t ih =>
    by_cases h : p a <;> simp [List.filterMap_cons, List.countP_cons, h, ih]

/-- C3: `Neighbourhood::update` returns `(k + 1) / numRows` where `k` counts
the rows whose best and next-best matching cells are more than one lattice
step apart; with `k = 0` the returned value is exactly `1 / numRows`. -/
theorem C3_topographic_error_counts_discontinuities_plus_one
    {β : Type} [LinearOrderedCommRing β] (rpow : β → β → β) (nb : Neighbourhood β)
    (best next : List ℕ) (num_rows : ℕ) (respect_lower_bound : Bool) :
    (nb.update rpow best next num_rows respect_lower_bound).2
        = (((List.range num_rows).countP
              (fun row => decide (1 < nb.cell_distance (best.getD row 0) (next.getD row 0)))
            + 1 : ℕ) : ℚ) / (num_rows : ℚ)
      ∧ ((List.range num_rows).countP
            (fun row => decide (1 < nb.cell_distance (best.getD row 0) (next.getD row 0))) = 0
          → (nb.update rpow best next num_rows respect_lower_bound).2 = 1 / (num_rows : ℚ)) := by
  have hlen : (nb.topographic_discontinuities best next num_rows).length
      = (List.range num_rows).countP
          (fun row => decide (1 < nb.cell_distance (best.getD row 0) (next.getD row 0))) := by
    simp only [Neighbourhood.topographic_discontinuities]
    exact length_filterMap_ite _ _ _
  constructor
  · simp only [Neighbourhood.update, hlen]
  · intro hk
    simp only [Neighbourhood.update, hlen, hk]
    norm_num

/-- One `Neighbourhood::update` with `std::pow` modelled by `Real.rpow`
preserves the radius invariant: all values stay `≥ 1` (for either value of
`respect_lower_bound`), and the field keeps one radius per cell. -/
theorem update_keeps_radii_at_least_one (nb : Neighbourhood ℝ)
    (best next : List ℕ) (num_rows : ℕ) (respect_lower_bound : Bool)
    (hlen : nb.values.length = nb.num_cells) (hval : ∀ x ∈ nb.values, 1 ≤ x)
    (hpos : 0 < nb.update_exponent) :
    (nb.update Real.rpow best next num_rows respect_lower_bound).1.values.length
        = (nb.update Real.rpow best next num_rows respect_lower_bound).1.num_cells
      ∧ ∀ x ∈ (nb.update Real.rpow best next num_rows respect_lower_bound).1.values, 1 ≤ x := by
  constructor
  · simp [Neighbourhood.update, Neighbourhood.num_cells]
  · intro x hx
    simp only [Neighbourhood.update, List.mem_map, List.mem_range] at hx
    obtain ⟨cell, hcell, hfx⟩ := hx
    have hc : cell < nb.values.length := by rw [hlen]; exact hcell
    have hv : 1 ≤ nb.values.getD cell 0 := by
      rw [List.getD_eq_getElem nb.values 0 hc]
      exact hval _ (List.getElem_mem hc)
    have hpow : 1 ≤ Real.rpow (nb.values.getD cell 0) nb.update_exponent :=
      Real.one_le_rpow hv hpos.le
    subst hfx
    cases respect_lower_bound with
    | true => exact le_trans hpow (by simp)
    | false => simpa using hpow

/-- The radius invariant survives any sequence of updates. -/
theorem iterate_updates_keeps_radii_at_least_one (inputs : List (List ℕ × List ℕ × ℕ × Bool))
    (nb : Neighbourhood ℝ)
    (hlen : nb.values.length = nb.num_cells) (hval : ∀ x ∈ nb.values, 1 ≤ x)
    (hpos : 0 < nb.update_exponent) :
    ∀ x ∈ (nb.iterate_updates Real.rpow inputs).values, 1 ≤ x := by
  induction inputs generalizing nb with
  | nil => exact hval
  | cons input rest ih =>
    obtain ⟨b, n, N, r⟩ := input
    have step := update_keeps_radii_at_least_one nb b n N r hlen hval hpos
    have hexp : (nb.update Real.rpow b n N r).1.update_exponent = nb.update_exponent := by
      simp [Neighbourhood.update]
    exact ih _ step.1 step.2 (by rw [hexp]; exact hpos)

/-- C5: a neighbourhood constructed with an integer initial radius `≥ 1` and
an update exponent in `(0, 1]` keeps every cell's radius `≥ 1` after any
number of updates, whether or not the lower bound is respected. -/
theorem C5_radii_stay_at_least_one (height width : ℕ) (dist : DistFun)
    (update_exponent : ℝ) (initial_radius : ℕ)
    (inputs : List (List ℕ × List ℕ × ℕ × Bool))
    (hr : 1 ≤ initial_radius) (he0 : 0 < update_exponent) (_he1 : update_exponent ≤ 1) :
    ∀ x ∈ ((Neighbourhood.create height width dist update_exponent
        initial_radius).iterate_updates Real.rpow inputs).values, 1 ≤ x := by
  apply iterate_updates_keeps_radii_at_least_one
  · simp [Neighbourhood.create, Neighbourhood.num_cells]
  · intro x hx
    have hx1 := List.eq_of_mem_replicate hx
    subst hx1
    exact_mod_cast Nat.one_le_cast.mpr hr
  · exact he0

/-- Witness for C5 at a concrete input: a 2 × 2 rect/plane neighbourhood with
initial radius 3 and exponent 1/2, updated twice. -/
theorem C5_radii_stay_at_least_one_witness :
    ((1 : ℕ) ≤ 3 ∧ (0 : ℝ) < 1 / 2 ∧ (1 / 2 : ℝ) ≤ 1)
      ∧ ∀ x ∈ ((Neighbourhood.create 2 2 dist_rect_plane (1 / 2 : ℝ)
          3).iterate_updates Real.rpow
            [([0, 1], [3, 2], 2, true), ([0, 0], [1, 3], 2, false)]).values, 1 ≤ x :=
  ⟨⟨by norm_num, by norm_num, by norm_num⟩,
    C5_radii_stay_at_least_one 2 2 dist_rect_plane (1 / 2) 3
      [([0, 1], [3, 2], 2, true), ([0, 0], [1, 3], 2, false)]
      (by norm_num) (by norm_num) (by norm_num)⟩

/-! ## Batch-SOM update (`som.cpp` `Codebook::apply_batch_som_update`) -/

/-- `som.cpp` `Codebook::get_value` (reads beyond the array are modelled by
the default 0). -/
def Codebook.get_value (cb : Codebook α) (index : ℕ) : α := cb.array.getD index 0

/-- `som.cpp` `Codebook::init`: the array is resized to
`num_cells * input_dim` and entry `i` receives the `i`-th draw of
`uniform_real_distribution<Float>(0, 1)`; the draws are modelled by `draw`. -/
def Codebook.init (cb : Codebook α) (draw : ℕ → α) : Codebook α :=
  { cb with array := (List.range (cb.num_cells * cb.input_dim)).map draw }

section BatchUpdate

variable {F : Type} [LinearOrderedField F]

/-- The inner loop of the batch update over one row's indices
(`som.cpp:563-568`): `numerator[indices[i]] += learning_rate` for each index
below the cutoff. -/
def accumulate_numerator (numerator : ℕ → F) (learning_rate : F) (idxs : List ℕ) : ℕ → F :=
  idxs.foldl (fun f idx => Function.update f idx (f idx + learning_rate)) numerator

/-- One row-visit of the batch update (`som.cpp:552-569`): rows whose
learning rate (the neighbourhood influence of the row's BMU on the target
cell) is `≤ 0` are skipped; otherwise the rate is added to the denominator
and to the numerator of each of the row's dimensions below the cutoff. -/
def batch_row_step (data : BinarySparseMatrix F) (exp : F → F) (nb : Neighbourhood F)
    (best_matching_units : List ℕ) (effective_input_dim cell_index : ℕ)
    (st : F × (ℕ → F)) (row : ℕ) : F × (ℕ → F) :=
  let learning_rate :=
    Neighbourhood.influence exp nb (best_matching_units.getD row 0) cell_index
  if learning_rate ≤ 0 then st
  else (st.1 + learning_rate,
    accumulate_numerator st.2 learning_rate
      (below_cutoff (data.indices_in_row row) effective_input_dim))

/-- One target cell's pass over all rows (`som.cpp:549-569`), producing the
`(denominator, numerator)` accumulators. -/
def batch_cell_pass (data : BinarySparseMatrix F) (exp : F → F) (nb : Neighbourhood F)
    (best_matching_units : List ℕ) (effective_input_dim cell_index : ℕ) : F × (ℕ → F) :=
  (List.range data.num_rows).foldl
    (batch_row_step data exp nb best_matching_units effective_input_dim cell_index)
    (0, fun _ => 0)

/-- Closed form of the denominator: the sum of the positive learning rates
over all rows. -/
def batch_denominator (data : BinarySparseMatrix F) (exp : F → F) (nb : Neighbourhood F)
    (best_matching_units : List ℕ) (_effective_input_dim cell_index : ℕ) : F :=
  ((List.range data.num_rows).map fun row =>
    let learning_rate :=
      Neighbourhood.influence exp nb (best_matching_units.getD row 0) cell_index
    if 0 < learning_rate then learning_rate else 0).sum

/-- Closed form of the numerator of dimension `i`: each contributing row adds
its learning rate once per occurrence of `i` among its indices below the
cutoff (at most once when the row's indices are strictly ascending). -/
def batch_numerator (data : BinarySparseMatrix F) (exp : F → F) (nb : Neighbourhood F)
    (best_matching_units : List ℕ) (effective_input_dim cell_index i : ℕ) : F :=
  ((List.range data.num_rows).map fun row =>
    let learning_rate :=
      Neighbourhood.influence exp nb (best_matching_units.getD row 0) cell_index
    if 0 < learning_rate then
      learning_rate * ((below_cutoff (data.indices_in_row row) effective_input_dim).count i : F)
    else 0).sum

/-- `som.cpp` `Codebook::apply_batch_som_update` (with `std::exp` inside the
neighbourhood influence passed as `exp`): entry `(cell, i)` becomes
`numerator[i] / denominator` whenever the cell's denominator is nonzero, and
is left unchanged otherwise. -/
def Codebook.apply_batch_som_update (cb : Codebook F) (data : BinarySparseMatrix F)
    (exp : F → F) (neighbourhood : Neighbourhood F) (best_matching_units : List ℕ)
    (train_vocab_cutoff : ℕ) : Codebook F :=
  let effective_input_dim := if 0 < train_vocab_cutoff then train_vocab_cutoff else cb.input_dim
  { cb with
    array := (List.range (cb.num_cells * cb.input_dim)).map fun flat =>
      let cell_index := flat / cb.input_dim
      let i := flat % cb.input_dim
      let p := batch_cell_pass data exp neighbourhood best_matching_units
        effective_input_dim cell_index
      if p.1 ≠ 0 then p.2 i / p.1 else cb.array.getD flat 0 }

theorem accumulate_numerator_apply (numerator : ℕ → F) (learning_rate : F)
    (idxs : List ℕ) (i : ℕ) :
    accumulate_numerator numerator learning_rate idxs i
      = numerator i + learning_rate * (idxs.count i : F) := by
  induction idxs generalizing numerator with
  | nil => simp [accumulate_numerator]
  | cons a t ih =>
    show accumulate_numerator (Function.update numerator a (numerator a + learning_rate))
        learning_rate t i = _
    rw [ih]
    rcases eq_or_ne i a with rfl | hne
    · simp [List.count_cons, Function.update_apply, mul_add]
      ring
    · simp [List.count_cons, Function.update_apply, hne]

theorem batch_fold_characterization (data : BinarySparseMatrix F) (exp : F → F)
    (nb : Neighbourhood F) (bmu : List ℕ) (eff cell : ℕ) (rows : List ℕ)
    (st : F × (ℕ → F)) :
    ((rows.foldl (batch_row_step data exp nb bmu eff cell) st).1
        = st.1 + (rows.map fun row =>
            let lr := Neighbourhood.influence exp nb (bmu.getD row 0) cell
            if 0 < lr then lr else 0).sum)
      ∧ ∀ i, (rows.foldl (batch_row_step data exp nb bmu eff cell) st).2 i
          = st.2 i + (rows.map fun row =>
              let lr := Neighbourhood.influence exp nb (bmu.getD row 0) cell
              if 0 < lr then lr * ((below_cutoff (data.indices_in_row row) eff).count i : F)
              else 0).sum := by
  induction rows generalizing st with
  | nil => simp
  | cons a t ih =>
    simp only [List.foldl_cons, List.map_cons, List.sum_cons]
    rcases le_or_lt (Neighbourhood.influence exp nb (bmu.getD a 0) cell) 0 with h | h
    · have hstep : batch_row_step data exp nb bmu eff cell st a = st := by
        simp only [batch_row_step]
        rw [if_pos h]
      rw [hstep]
      refine ⟨?_, fun i => ?_⟩
      · rw [(ih st).1, if_neg (not_lt.mpr h), zero_add]
      · rw [(ih st).2 i, if_neg (not_lt.mpr h), zero_add]
    · have hstep : batch_row_step data exp nb bmu eff cell st a
          = (st.1 + Neighbourhood.influence exp nb (bmu.getD a 0) cell,
             accumulate_numerator st.2 (Neighbourhood.influence exp nb (bmu.getD a 0) cell)
               (below_cutoff (data.indices_in_row a) eff)) := by
        simp only [batch_row_step]
        rw [if_neg (not_le.mpr h)]
      rw [hstep]
      refine ⟨?_, fun i => ?_⟩
      · rw [(ih _).1, if_pos h]
        dsimp only
        ring
      · rw [(ih _).2 i]
        dsimp only
        rw [accumulate_numerator_apply, if_pos h]
        ring

theorem batch_cell_pass_fst (data : BinarySparseMatrix F) (exp : F → F)
    (nb : Neighbourhood F) (bmu : List ℕ) (eff cell : ℕ) :
    (batch_cell_pass data exp nb bmu eff cell).1
      = batch_denominator data exp nb bmu eff cell := by
  have h := (batch_fold_characterization data exp nb bmu eff cell
    (List.range data.num_rows) (0, fun _ => 0)).1
  simpa [batch_cell_pass, batch_denominator] using h

theorem batch_cell_pass_snd (data : BinarySparseMatrix F) (exp : F → F)
    (nb : Neighbourhood F) (bmu : List ℕ) (eff cell i : ℕ) :
    (batch_cell_pass data exp nb bmu eff cell).2 i
      = batch_numerator data exp nb bmu eff cell i := by
  have h := (batch_fold_characterization data exp nb bmu eff cell
    (List.range data.num_rows) (0, fun _ => 0)).2 i
  simpa [batch_cell_pass, batch_numerator] using h

theorem batch_denominator_nonneg (data : BinarySparseMatrix F) (exp : F → F)
    (nb : Neighbourhood F) (bmu : List ℕ) (eff cell : ℕ) :
    0 ≤ batch_denominator data exp nb bmu eff cell := by
  apply List.sum_nonneg
  intro x hx
  simp only [List.mem_map] at hx
  obtain ⟨row, -, rfl⟩ := hx
  split
  · exact le_of_lt (by assumption)
  · exact le_refl 0

theorem batch_numerator_nonneg (data : BinarySparseMatrix F) (exp : F → F)
    (nb : Neighbourhood F) (bmu : List ℕ) (eff cell i : ℕ) :
    0 ≤ batch_numerator data exp nb bmu eff cell i := by
  apply List.sum_nonneg
  intro x hx
  simp only [List.mem_map] at hx
  obtain ⟨row, -, rfl⟩ := hx
  split
  · exact mul_nonneg (le_of_lt (by assumption)) (Nat.cast_nonneg _)
  · exact le_refl 0

theorem batch_numerator_le_denominator (data : BinarySparseMatrix F) (exp : F → F)
    (nb : Neighbourhood F) (bmu : List ℕ) (eff cell i : ℕ)
    (hsorted : ∀ row < data.num_rows, (data.indices_in_row row).Sorted (· < ·)) :
    batch_numerator data exp nb bmu eff cell i
      ≤ batch_denominator data exp nb bmu eff cell := by
  apply List.sum_le_sum
  intro row hrow
  rw [List.mem_range] at hrow
  dsimp only
  split
  · rename_i hpos
    have hnodup : (below_cutoff (data.indices_in_row row) eff).Nodup :=
      ((hsorted row hrow).sublist (List.takeWhile_sublist _)).nodup
    have hcount : (below_cutoff (data.indices_in_row row) eff).count i ≤ 1 :=
      List.nodup_iff_count_le_one.mp hnodup i
    have hcast : ((below_cutoff (data.indices_in_row row) eff).count i : F) ≤ 1 := by
      exact_mod_cast hcount
    exact mul_le_of_le_one_right (le_of_lt hpos) hcast
  · exact le_refl _

theorem getD_map_range {γ : Type} (f : ℕ → γ) (n idx : ℕ) (d : γ) :
    ((List.range n).map f).getD idx d = if idx < n then f idx else d := by
  by_cases h : idx < n
  · rw [if_pos h]
    rw [List.getD_eq_getElem _ _ (by simpa using h)]
    simp only [List.getElem_map, List.getElem_range]
  · rw [if_neg h]
    exact List.getD_eq_default _ _ (by simpa using not_lt.mp h)

/-- C6: entries are in `[0, 1]` after initialization (the uniform draws land
in `[0, 1]`), and the batch-SOM update preserves this: every entry it writes
is `numerator / denominator` with `0 ≤ numerator ≤ denominator` (each
contributing row adds its positive influence to the denominator once and to a
touched dimension's numerator at most once, the rows' indices being strictly
ascending), cells with zero denominator keeping their previous values. -/
theorem C6_codebook_entries_stay_in_unit_interval (cb : Codebook F)
    (data : BinarySparseMatrix F) (exp : F → F) (nb : Neighbourhood F)
    (bmu : List ℕ) (cutoff : ℕ)
    (hsorted : ∀ row < data.num_rows, (data.indices_in_row row).Sorted (· < ·)) :
    (∀ draw : ℕ → F, (∀ k, 0 ≤ draw k ∧ draw k ≤ 1) →
        ∀ x ∈ (cb.init draw).array, 0 ≤ x ∧ x ≤ 1)
    ∧ (∀ flat < cb.num_cells * cb.input_dim,
        ((cb.apply_batch_som_update data exp nb bmu cutoff).get_value flat
            = if batch_denominator data exp nb bmu
                  (if 0 < cutoff then cutoff else cb.input_dim) (flat / cb.input_dim) ≠ 0
              then batch_numerator data exp nb bmu
                    (if 0 < cutoff then cutoff else cb.input_dim) (flat / cb.input_dim)
                    (flat % cb.input_dim)
                  / batch_denominator data exp nb bmu
                    (if 0 < cutoff then cutoff else cb.input_dim) (flat / cb.input_dim)
              else cb.get_value flat)
          ∧ 0 ≤ batch_numerator data exp nb bmu
              (if 0 < cutoff then cutoff else cb.input_dim) (flat / cb.input_dim)
              (flat % cb.input_dim)
          ∧ batch_numerator data exp nb bmu
              (if 0 < cutoff then cutoff else cb.input_dim) (flat / cb.input_dim)
              (flat % cb.input_dim)
            ≤ batch_denominator data exp nb bmu
                (if 0 < cutoff then cutoff else cb.input_dim) (flat / cb.input_dim))
    ∧ ((∀ idx, 0 ≤ cb.get_value idx ∧ cb.get_value idx ≤ 1) →
        ∀ idx, 0 ≤ (cb.apply_batch_som_update data exp nb bmu cutoff).get_value idx
          ∧ (cb.apply_batch_som_update data exp nb bmu cutoff).get_value idx ≤ 1) := by
  have hchar : ∀ flat, flat < cb.num_cells * cb.input_dim →
      (cb.apply_batch_som_update data exp nb bmu cutoff).get_value flat
        = if batch_denominator data exp nb bmu
              (if 0 < cutoff then cutoff else cb.input_dim) (flat / cb.input_dim) ≠ 0
          then batch_numerator data exp nb bmu
                (if 0 < cutoff then cutoff else cb.input_dim) (flat / cb.input_dim)
                (flat % cb.input_dim)
              / batch_denominator data exp nb bmu
                (if 0 < cutoff then cutoff else cb.input_dim) (flat / cb.input_dim)
          else cb.get_value flat := by
    intro flat hflat
    simp only [Codebook.apply_batch_som_update, Codebook.get_value]
    rw [getD_map_range, if_pos hflat]
    simp only [batch_cell_pass_fst, batch_cell_pass_snd]
  have hbeyond : ∀ idx, ¬ idx < cb.num_cells * cb.input_dim →
      (cb.apply_batch_som_update data exp nb bmu cutoff).get_value idx = 0 := by
    intro idx hidx
    simp only [Codebook.apply_batch_som_update, Codebook.get_value]
    rw [getD_map_range, if_neg hidx]
  refine ⟨?_, ?_, ?_⟩
  · intro draw hdraw x hx
    simp only [Codebook.init, List.mem_map, List.mem_range] at hx
    obtain ⟨k, -, rfl⟩ := hx
    exact hdraw k
  · intro flat hflat
    exact ⟨hchar flat hflat,
      batch_numerator_nonneg data exp nb bmu _ _ _,
      batch_numerator_le_denominator data exp nb bmu _ _ _ hsorted⟩
  · intro hold idx
    by_cases hidx : idx < cb.num_cells * cb.input_dim
    · rw [hchar idx hidx]
      by_cases hden : batch_denominator data exp nb bmu
          (if 0 < cutoff then cutoff else cb.input_dim) (idx / cb.input_dim) ≠ 0
      · rw [if_pos hden]
        have hden0 : 0 ≤ batch_denominator data exp nb bmu
            (if 0 < cutoff then cutoff else cb.input_dim) (idx / cb.input_dim) :=
          batch_denominator_nonneg data exp nb bmu _ _
        have hdenpos : 0 < batch_denominator data exp nb bmu
            (if 0 < cutoff then cutoff else cb.input_dim) (idx / cb.input_dim) :=
          lt_of_le_of_ne hden0 (Ne.symm hden)
        constructor
        · exact div_nonneg (batch_numerator_nonneg data exp nb bmu _ _ _) hden0
        · exact (div_le_one hdenpos).mpr
            (batch_numerator_le_denominator data exp nb bmu _ _ _ hsorted)
      · rw [if_neg hden]
        exact hold idx
    · rw [hbeyond idx hidx]
      exact ⟨le_refl 0, zero_le_one⟩

end BatchUpdate

/-- A 1-cell, 1-dimensional codebook holding the single entry `1/2`. -/
def c6_codebook : Codebook ℚ :=
  { width := 1, height := 1, input_dim := 1,
    global_topology := GlobalTopology.PLANE, local_topology := LocalTopology.RECT,
    array := [1/2] }

/-- A 1-row corpus over a 1-word vocabulary, row `{0}`. -/
def c6_corpus : BinarySparseMatrix ℚ :=
  { num_rows := 1, num_cols := 1, index_pointers := [0, 1], indices := [0],
    weights := [], has_weights := false, sum_of_squares := [1] }

/-- A 1 × 1 rect/plane neighbourhood with radius 2. -/
def c6_neighbourhood : Neighbourhood ℚ :=
  { height := 1, width := 1, dist := dist_rect_plane, update_exponent := 1,
    initial_radius := 2, values := [2] }

/-- Witness for C6 at a concrete input: the sortedness hypothesis holds for
`c6_corpus` and the updated codebook's entries all lie in `[0, 1]`. -/
theorem C6_codebook_entries_stay_in_unit_interval_witness :
    (∀ row < c6_corpus.num_rows, (c6_corpus.indices_in_row row).Sorted (· < ·))
    ∧ ∀ idx,
        0 ≤ (c6_codebook.apply_batch_som_update c6_corpus (fun _ => 1)
              c6_neighbourhood [0] 0).get_value idx
        ∧ (c6_codebook.apply_batch_som_update c6_corpus (fun _ => 1)
              c6_neighbourhood [0] 0).get_value idx ≤ 1 := by
  have hsorted : ∀ row < c6_corpus.num_rows, (c6_corpus.indices_in_row row).Sorted (· < ·) := by
    decide
  refine ⟨hsorted, ?_⟩
  apply (C6_codebook_entries_stay_in_unit_interval c6_codebook c6_corpus (fun _ => 1)
    c6_neighbourhood [0] 0 hsorted).2.2
  intro idx
  match idx with
  | 0 => exact ⟨by norm_num [Codebook.get_value, c6_codebook], by
      norm_num [Codebook.get_value, c6_codebook]⟩
  | n + 1 => exact ⟨by simp [Codebook.get_value, c6_codebook, List.getD], by
      simp [Codebook.get_value, c6_codebook, List.getD]⟩

/-! ## Dead-cell reassignment (`som.cpp` `Codebook::assign_dead_cells`) -/

/-- Descending sort, modelling `std::partial_sort_copy(..., std::greater)`
up to the threshold element (the `k`-th largest element of the fully sorted
order equals the `k`-th element of the partially sorted copy). -/
def sorted_desc (l : List α) : List α :=
  l.insertionSort fun a b => b ≤ a

/-- The count of cells marked used by the first scan of
`Codebook::assign_dead_cells` (and of `gap_error`): cells that appear as some
row's best matching unit. -/
def Codebook.num_used_cells (cb : Codebook α) (best_matching_units : List ℕ)
    (num_rows : ℕ) : ℕ :=
  ((List.range cb.num_cells).filter fun c =>
    decide (c ∈ best_matching_units.take num_rows)).length

/-- `num_cells_unused = num_cells - num_cells_used` (`som.cpp:635`). -/
def Codebook.num_unused_cells (cb : Codebook α) (best_matching_units : List ℕ)
    (num_rows : ℕ) : ℕ :=
  cb.num_cells - cb.num_used_cells best_matching_units num_rows

/-- The unused cells in cell-index order (the assignment loop of
`som.cpp:667-674` visits cells in index order and picks the ones not in
use). -/
def Codebook.unused_cells_list (cb : Codebook α) (best_matching_units : List ℕ)
    (num_rows : ℕ) : List ℕ :=
  (List.range cb.num_cells).filter fun c =>
    decide (c ∉ best_matching_units.take num_rows)

/-- `distance_threshold` (`som.cpp:645-651`): the `k`-th largest of the first
`num_rows` distances. -/
def dead_cell_threshold (distances : List α) (num_rows k : ℕ) : α :=
  (sorted_desc (distances.take num_rows)).getD (k - 1) 0

/-- `worst_matching_inputs` (`som.cpp:655-663`): the first `k` rows, in row
order, whose distance is at least the threshold. -/
def worst_matching_inputs (distances : List α) (num_rows k : ℕ) : List ℕ :=
  ((List.range num_rows).filter fun row =>
    decide (dead_cell_threshold distances num_rows k ≤ distances.getD row 0)).take k

/-- `som.cpp` `Codebook::assign_dead_cells`. The result carries the
(possibly updated) BMU array, the distances array and the codebook array —
which the function never writes — and the returned gap error. -/
def Codebook.assign_dead_cells (cb : Codebook α) (best_matching_units : List ℕ)
    (distances : List α) (num_rows : ℕ) : List ℕ × List α × List α × ℚ :=
  let num_cells_unused := cb.num_unused_cells best_matching_units num_rows
  if num_cells_unused = 0 ∨ num_rows < num_cells_unused then
    (best_matching_units, distances, cb.array, 0)
  else
    (((cb.unused_cells_list best_matching_units num_rows).zip
        (worst_matching_inputs distances num_rows num_cells_unused)).foldl
        (fun b p => b.set p.2 p.1) best_matching_units,
      distances, cb.array,
      (num_cells_unused : ℚ) / (cb.num_cells : ℚ))

/-- `som.cpp` `Codebook::quantization_error`, with `std::sqrt` passed in:
`sqrt(Σ_r squared(distances[r])) / num_rows`. -/
def quantization_error {F : Type} [LinearOrderedField F] (sqrt' : F → F)
    (distances : List F) (num_rows : ℕ) : F :=
  sqrt' (((List.range num_rows).map fun row => squared (distances.getD row 0)).sum)
    / (num_rows : F)

/-- C10: `assign_dead_cells` writes only the best-matching-unit array — the
distances array and the codebook array come back unchanged on every input —
so the quantization error computed later in the epoch from the distances
array equals the quantization error of the pre-reassignment distances. -/
theorem C10_assign_dead_cells_only_writes_bmus {F : Type} [LinearOrderedField F]
    (cb : Codebook F) (best_matching_units : List ℕ) (distances : List F)
    (num_rows : ℕ) :
    (cb.assign_dead_cells best_matching_units distances num_rows).2.1 = distances
    ∧ (cb.assign_dead_cells best_matching_units distances num_rows).2.2.1 = cb.array
    ∧ ∀ sqrt' : F → F,
        quantization_error sqrt'
            (cb.assign_dead_cells best_matching_units distances num_rows).2.1 num_rows
          = quantization_error sqrt' distances num_rows := by
  have h21 : (cb.assign_dead_cells best_matching_units distances num_rows).2.1 = distances := by
    simp only [Codebook.assign_dead_cells]
    split <;> rfl
  have h221 : (cb.assign_dead_cells best_matching_units distances num_rows).2.2.1
      = cb.array := by
    simp only [Codebook.assign_dead_cells]
    split <;> rfl
  exact ⟨h21, h221, fun sqrt' => by rw [h21]⟩

theorem filter_not_length {β : Type} (l : List β) (p : β → Bool) :
    (l.filter fun b => !(p b)).length + (l.filter p).length = l.length := by
  induction l with
  | nil => rfl
  | cons a t ih => by_cases h : p a <;> simp [List.filter_cons, h, ← ih] <;> omega

theorem unused_cells_list_length (cb : Codebook α) (bmu : List ℕ) (n : ℕ) :
    (cb.unused_cells_list bmu n).length = cb.num_unused_cells bmu n := by
  have hfun : (fun c => decide (c ∉ bmu.take n)) = fun c => !(decide (c ∈ bmu.take n)) :=
    funext fun c => decide_not
  simp only [Codebook.unused_cells_list, Codebook.num_unused_cells,
    Codebook.num_used_cells, hfun]
  have h := filter_not_length (List.range cb.num_cells) fun c => decide (c ∈ bmu.take n)
  rw [List.length_range] at h
  omega

theorem sorted_desc_sorted (l : List α) : (sorted_desc l).Sorted fun a b => b ≤ a := by
  haveI : IsTotal α fun a b => b ≤ a := ⟨fun a b => le_total b a⟩
  haveI : IsTrans α fun a b => b ≤ a := ⟨fun _ _ _ hab hbc => le_trans hbc hab⟩
  exact List.sorted_insertionSort _ _

theorem countP_range_getD {β : Type} (l : List β) (d : β) (p : β → Bool) :
    (List.range l.length).countP (fun i => p (l.getD i d)) = l.countP p := by
  have hmap : (List.range l.length).map (fun i => l.getD i d) = l := by
    apply List.ext_getElem (by simp)
    intro i h1 h2
    simp [List.getElem?_eq_getElem h2]
  conv_rhs => rw [← hmap, List.countP_map]
  rfl

/-- At least `k` of the first `num_rows` distances are `≥` the
`k`-th largest of them. -/
theorem count_at_least_threshold (distances : List α) (num_rows k : ℕ)
    (hk1 : 1 ≤ k) (hkn : k ≤ num_rows) (hd : distances.length = num_rows) :
    k ≤ (List.range num_rows).countP fun row =>
      decide (dead_cell_threshold distances num_rows k ≤ distances.getD row 0) := by
  have htake : distances.take num_rows = distances := List.take_of_length_le (le_of_eq hd)
  set th := dead_cell_threshold distances num_rows k with hthdef
  set s := sorted_desc distances with hsdef
  have hslen : s.length = num_rows := by
    rw [hsdef, sorted_desc, List.length_insertionSort, hd]
  have hk1' : k - 1 < s.length := by omega
  have hth : th = s.getD (k - 1) 0 := by
    rw [hthdef, dead_cell_threshold, htake, hsdef]
  have hstep1 : (List.range num_rows).countP (fun row => decide (th ≤ distances.getD row 0))
      = distances.countP fun dval => decide (th ≤ dval) := by
    conv_lhs => rw [← hd]
    exact countP_range_getD distances 0 fun dval => decide (th ≤ dval)
  have hstep2 : distances.countP (fun dval => decide (th ≤ dval))
      = s.countP fun dval => decide (th ≤ dval) :=
    ((List.perm_insertionSort _ distances).countP_eq _).symm
  have htklen : (s.take k).length = k := by
    rw [List.length_take, hslen]
    omega
  have htkall : ∀ a ∈ s.take k, (fun dval => decide (th ≤ dval)) a = true := by
    intro a ha
    obtain ⟨i, hi, rfl⟩ := List.mem_iff_getElem.mp ha
    have hik : i < k := by
      have h := hi
      rw [htklen] at h
      exact h
    have hi2 : i < s.length := by
      rw [hslen]
      omega
    show decide (th ≤ (s.take k).get ⟨i, hi⟩) = true
    refine decide_eq_true ?_
    have htko : (s.take k).get ⟨i, hi⟩ = s.getD i 0 := by
      rw [List.get_eq_getElem, List.getElem_take]
      exact (List.getD_eq_getElem s 0 hi2).symm
    rw [htko, hth]
    rcases eq_or_lt_of_le (Nat.lt_succ_iff.mp (by omega : i < (k - 1) + 1)) with heq | hlt
    · rw [heq]
    · rw [List.getD_eq_getElem s 0 hk1', List.getD_eq_getElem s 0 hi2]
      exact List.pairwise_iff_getElem.mp (sorted_desc_sorted distances) i (k - 1)
        hi2 hk1' hlt
  have hsum : s.countP (fun dval => decide (th ≤ dval))
      = (s.take k).countP (fun dval => decide (th ≤ dval))
        + (s.drop k).countP fun dval => decide (th ≤ dval) := by
    conv_lhs => rw [← List.take_append_drop k s]
    rw [List.countP_append]
  have h1 : (s.take k).countP (fun dval => decide (th ≤ dval)) = k := by
    rw [List.countP_eq_length.mpr htkall, htklen]
  rw [hstep1, hstep2, hsum, h1]
  exact Nat.le_add_right k _

theorem worst_matching_inputs_length (distances : List α) (num_rows k : ℕ)
    (hk1 : 1 ≤ k) (hkn : k ≤ num_rows) (hd : distances.length = num_rows) :
    (worst_matching_inputs distances num_rows k).length = k := by
  rw [worst_matching_inputs, List.length_take]
  have h := count_at_least_threshold distances num_rows k hk1 hkn hd
  rw [List.countP_eq_length_filter] at h
  omega

theorem foldl_set_getD_not_mem (pairs : List (ℕ × ℕ)) (b : List ℕ) (r : ℕ)
    (hr : ∀ p ∈ pairs, p.2 ≠ r) :
    (pairs.foldl (fun acc p => acc.set p.2 p.1) b).getD r 0 = b.getD r 0 := by
  induction pairs generalizing b with
  | nil => rfl
  | cons hd tl ih =>
    rw [List.foldl_cons, ih _ fun p hp => hr p (List.mem_cons_of_mem _ hp)]
    have hne : hd.2 ≠ r := hr hd (List.mem_cons_self _ _)
    simp [List.getElem?_set_ne hne]

theorem foldl_set_getD_mem (pairs : List (ℕ × ℕ)) (b : List ℕ)
    (hnd : (pairs.map Prod.snd).Nodup) (hlen : ∀ p ∈ pairs, p.2 < b.length) :
    ∀ p ∈ pairs, (pairs.foldl (fun acc q => acc.set q.2 q.1) b).getD p.2 0 = p.1 := by
  induction pairs generalizing b with
  | nil => simp
  | cons hd tl ih =>
    intro p hp
    rcases List.mem_cons.mp hp with rfl | hp'
    · rw [List.foldl_cons]
      have hnot : ∀ q ∈ tl, q.2 ≠ p.2 := by
        intro q hq
        have := (List.nodup_cons.mp hnd).1
        exact fun heq => this (heq ▸ List.mem_map_of_mem Prod.snd hq)
      rw [foldl_set_getD_not_mem tl _ p.2 hnot]
      have hp2 : p.2 < b.length := hlen p hp
      simp [List.getElem?_set_self hp2]
    · rw [List.foldl_cons]
      exact ih _ (List.nodup_cons.mp hnd).2
        (fun q hq => by rw [List.length_set]; exact hlen q (List.mem_cons_of_mem _ hq))
        p hp'

/-- C7: with `k` unused cells, `assign_dead_cells` leaves the BMU array
unchanged and returns 0 when `k = 0` or `k > numRows`; otherwise it returns
`k / numCells` and each previously unused cell becomes the BMU of one of the
rows whose distance reaches the `k`-th-largest-distance threshold (ties at
the threshold admitted). -/
theorem C7_dead_cell_reassignment (cb : Codebook α) (best_matching_units : List ℕ)
    (distances : List α) (num_rows : ℕ)
    (hb : best_matching_units.length = num_rows) (hd : distances.length = num_rows) :
    (cb.num_unused_cells best_matching_units num_rows = 0
        ∨ num_rows < cb.num_unused_cells best_matching_units num_rows →
      cb.assign_dead_cells best_matching_units distances num_rows
        = (best_matching_units, distances, cb.array, 0))
    ∧ (cb.num_unused_cells best_matching_units num_rows ≠ 0 →
       cb.num_unused_cells best_matching_units num_rows ≤ num_rows →
      (cb.assign_dead_cells best_matching_units distances num_rows).2.2.2
          = (cb.num_unused_cells best_matching_units num_rows : ℚ) / (cb.num_cells : ℚ)
        ∧ ∀ c < cb.num_cells, c ∉ best_matching_units.take num_rows →
            ∃ row < num_rows,
              dead_cell_threshold distances num_rows
                  (cb.num_unused_cells best_matching_units num_rows)
                ≤ distances.getD row 0
              ∧ (cb.assign_dead_cells best_matching_units distances num_rows).1.getD row 0
                = c) := by
  have hunfold : cb.assign_dead_cells best_matching_units distances num_rows
      = if cb.num_unused_cells best_matching_units num_rows = 0
          ∨ num_rows < cb.num_unused_cells best_matching_units num_rows then
          (best_matching_units, distances, cb.array, 0)
        else
          (((cb.unused_cells_list best_matching_units num_rows).zip
              (worst_matching_inputs distances num_rows
                (cb.num_unused_cells best_matching_units num_rows))).foldl
              (fun b p => b.set p.2 p.1) best_matching_units,
            distances, cb.array,
            (cb.num_unused_cells best_matching_units num_rows : ℚ) / (cb.num_cells : ℚ)) :=
    rfl
  constructor
  · intro hcond
    rw [hunfold, if_pos hcond]
  · intro hk0 hkn
    have hcond : ¬(cb.num_unused_cells best_matching_units num_rows = 0
        ∨ num_rows < cb.num_unused_cells best_matching_units num_rows) := by omega
    have hk1 : 1 ≤ cb.num_unused_cells best_matching_units num_rows :=
      Nat.one_le_iff_ne_zero.mpr hk0
    constructor
    · rw [hunfold, if_neg hcond]
    · intro c hc hcnot
      have hulen : (cb.unused_cells_list best_matching_units num_rows).length
          = cb.num_unused_cells best_matching_units num_rows :=
        unused_cells_list_length cb best_matching_units num_rows
      have hwlen : (worst_matching_inputs distances num_rows
            (cb.num_unused_cells best_matching_units num_rows)).length
          = cb.num_unused_cells best_matching_units num_rows :=
        worst_matching_inputs_length distances num_rows _ hk1 hkn hd
      have hcmem : c ∈ cb.unused_cells_list best_matching_units num_rows := by
        simp only [Codebook.unused_cells_list, List.mem_filter, List.mem_range]
        exact ⟨hc, by simpa using hcnot⟩
      obtain ⟨i, hiu, hieq⟩ := List.mem_iff_getElem.mp hcmem
      have hik : i < cb.num_unused_cells best_matching_units num_rows := by
        rw [hulen] at hiu
        exact hiu
      have hiw : i < (worst_matching_inputs distances num_rows
          (cb.num_unused_cells best_matching_units num_rows)).length := by
        rw [hwlen]
        exact hik
      have hrowmem : (worst_matching_inputs distances num_rows
            (cb.num_unused_cells best_matching_units num_rows)).get ⟨i, hiw⟩
          ∈ worst_matching_inputs distances num_rows
              (cb.num_unused_cells best_matching_units num_rows) :=
        List.get_mem _ _ _
      have hrowfil := List.mem_of_mem_take (n := cb.num_unused_cells best_matching_units
        num_rows) hrowmem
      rw [List.mem_filter, List.mem_range] at hrowfil
      refine ⟨(worst_matching_inputs distances num_rows
          (cb.num_unused_cells best_matching_units num_rows)).get ⟨i, hiw⟩,
        hrowfil.1, by simpa using hrowfil.2, ?_⟩
      rw [hunfold, if_neg hcond]
      have hziplen : i < ((cb.unused_cells_list best_matching_units num_rows).zip
          (worst_matching_inputs distances num_rows
            (cb.num_unused_cells best_matching_units num_rows))).length := by
        rw [List.length_zip, hulen, hwlen]
        simpa using hik
      have hzipeq : ((cb.unused_cells_list best_matching_units num_rows).zip
            (worst_matching_inputs distances num_rows
              (cb.num_unused_cells best_matching_units num_rows))).get ⟨i, hziplen⟩
          = (c, (worst_matching_inputs distances num_rows
              (cb.num_unused_cells best_matching_units num_rows)).get ⟨i, hiw⟩) := by
        rw [List.get_eq_getElem, List.get_eq_getElem, List.getElem_zip]
        exact congrArg (fun x => (x, _)) hieq
      have hpmem : (c, (worst_matching_inputs distances num_rows
            (cb.num_unused_cells best_matching_units num_rows)).get ⟨i, hiw⟩)
          ∈ (cb.unused_cells_list best_matching_units num_rows).zip
              (worst_matching_inputs distances num_rows
                (cb.num_unused_cells best_matching_units num_rows)) :=
        List.mem_iff_getElem.mpr ⟨i, hziplen,
          ((List.get_eq_getElem _ ⟨i, hziplen⟩).symm).trans hzipeq⟩
      have hnd : (((cb.unused_cells_list best_matching_units num_rows).zip
            (worst_matching_inputs distances num_rows
              (cb.num_unused_cells best_matching_units num_rows))).map Prod.snd).Nodup := by
        rw [List.map_snd_zip _ _ (by rw [hulen, hwlen])]
        exact List.Nodup.sublist (List.take_sublist _ _)
          (List.Nodup.filter _ (List.nodup_range _))
      have hlt : ∀ p ∈ (cb.unused_cells_list best_matching_units num_rows).zip
            (worst_matching_inputs distances num_rows
              (cb.num_unused_cells best_matching_units num_rows)),
          p.2 < best_matching_units.length := by
        intro p hp
        have hp2 := (List.of_mem_zip hp).2
        have := List.mem_of_mem_take (n := cb.num_unused_cells best_matching_units
          num_rows) hp2
        rw [List.mem_filter, List.mem_range] at this
        rw [hb]
        exact this.1
      exact foldl_set_getD_mem _ best_matching_units hnd hlt _ hpmem

/-- A 2-cell codebook for exercising `assign_dead_cells`. -/
def c7_codebook : Codebook ℤ :=
  { width := 2, height := 1, input_dim := 1,
    global_topology := GlobalTopology.PLANE, local_topology := LocalTopology.RECT,
    array := [0, 0] }

/-- Witness for C7 at a concrete input: 2 cells, 2 rows with BMUs `[0, 0]`
(so cell 1 is unused) and distances `[5, 3]`. -/
theorem C7_dead_cell_reassignment_witness :
    (([0, 0] : List ℕ).length = 2 ∧ ([5, 3] : List ℤ).length = 2)
    ∧ ((c7_codebook.num_unused_cells [0, 0] 2 = 0
          ∨ 2 < c7_codebook.num_unused_cells [0, 0] 2 →
        c7_codebook.assign_dead_cells [0, 0] [5, 3] 2 = ([0, 0], [5, 3], c7_codebook.array, 0))
      ∧ (c7_codebook.num_unused_cells [0, 0] 2 ≠ 0 →
         c7_codebook.num_unused_cells [0, 0] 2 ≤ 2 →
        (c7_codebook.assign_dead_cells [0, 0] [5, 3] 2).2.2.2
            = (c7_codebook.num_unused_cells [0, 0] 2 : ℚ) / (c7_codebook.num_cells : ℚ)
          ∧ ∀ c < c7_codebook.num_cells, c ∉ ([0, 0] : List ℕ).take 2 →
              ∃ row < 2,
                dead_cell_threshold [5, 3] 2 (c7_codebook.num_unused_cells [0, 0] 2)
                  ≤ ([5, 3] : List ℤ).getD row 0
                ∧ (c7_codebook.assign_dead_cells [0, 0] [5, 3] 2).1.getD row 0 = c)) :=
  ⟨⟨rfl, rfl⟩, C7_dead_cell_reassignment c7_codebook [0, 0] [5, 3] 2 rfl rfl⟩

/-! ## Semantic-map count building (`smap.cpp` `SemanticMap::build_counts`) -/

/-- `data.hpp`: `MAX_COUNT = std::numeric_limits<CountType>::max() = 2^32 - 1`. -/
def MAX_COUNT : ℕ := 2 ^ 32 - 1

/-- The `(vocab_index, best_matching_unit)` pairs visited by the two nested
loops of `SemanticMap::build_counts` (`smap.cpp:135-153`), in visit order. -/
def count_pairs (data : BinarySparseMatrix α) (best_matching_units : List ℕ) :
    List (ℕ × ℕ) :=
  (List.range data.num_rows).flatMap fun row =>
    (data.indices_in_row row).map fun vocab_index =>
      (vocab_index, best_matching_units.getD row 0)

/-- The count-increment loop of `SemanticMap::build_counts`: if the cell to
increment already holds at least `MAX_COUNT - 1`, the count tensor is dropped
(`delete_counts`, modelled by `none`); otherwise
`counts[num_cells * vocab_index + best_matching_unit] += 1`. -/
def build_counts_loop (num_cells : ℕ) : List (ℕ × ℕ) → (ℕ → ℕ) → Option (ℕ → ℕ)
  | [], counts => some counts
  | (vocab_index, best_matching_unit) :: rest, counts =>
    if MAX_COUNT - 1 ≤ counts (num_cells * vocab_index + best_matching_unit) then none
    else
      build_counts_loop num_cells rest
        (Function.update counts (num_cells * vocab_index + best_matching_unit)
          (counts (num_cells * vocab_index + best_matching_unit) + 1))

/-- `smap.cpp` `SemanticMap::build_counts`: counts start from 0
(`fill_n(counts, ..., 0)`); the best-matching-unit array is carried through
untouched (the function never writes it). -/
def SemanticMap_build_counts (data : BinarySparseMatrix α)
    (best_matching_units : List ℕ) (num_cells : ℕ) : List ℕ × Option (ℕ → ℕ) :=
  (best_matching_units,
    build_counts_loop num_cells (count_pairs data best_matching_units) fun _ => 0)

/-- The number of visits to flat count index `idx`. -/
def pair_hits (num_cells : ℕ) (pairs : List (ℕ × ℕ)) (idx : ℕ) : ℕ :=
  pairs.countP fun q => decide (num_cells * q.1 + q.2 = idx)

theorem build_counts_loop_some (num_cells : ℕ) (pairs : List (ℕ × ℕ)) (g f : ℕ → ℕ)
    (h : build_counts_loop num_cells pairs g = some f) :
    ∀ idx, f idx = g idx + pair_hits num_cells pairs idx := by
  induction pairs generalizing g with
  | nil =>
    intro idx
    simp only [build_counts_loop, Option.some.injEq] at h
    simp [pair_hits, ← h]
  | cons hd tl ih =>
    intro idx
    obtain ⟨v, b⟩ := hd
    rw [build_counts_loop] at h
    by_cases hcap : MAX_COUNT - 1 ≤ g (num_cells * v + b)
    · rw [if_pos hcap] at h
      exact absurd h (by simp)
    · rw [if_neg hcap] at h
      have hrec := ih _ h idx
      rw [hrec]
      simp only [pair_hits, List.countP_cons]
      rcases eq_or_ne (num_cells * v + b) idx with heq | hne
      · subst heq
        simp [Function.update_apply]
        omega
      · simp [Function.update_apply, hne, Ne.symm hne]

theorem build_counts_loop_none_iff (num_cells : ℕ) (pairs : List (ℕ × ℕ)) (g : ℕ → ℕ) :
    build_counts_loop num_cells pairs g = none ↔
      ∃ p ∈ pairs, MAX_COUNT ≤ g (num_cells * p.1 + p.2)
        + pair_hits num_cells pairs (num_cells * p.1 + p.2) := by
  induction pairs generalizing g with
  | nil => simp [build_counts_loop]
  | cons hd tl ih =>
    obtain ⟨v, b⟩ := hd
    rw [build_counts_loop]
    by_cases hcap : MAX_COUNT - 1 ≤ g (num_cells * v + b)
    · rw [if_pos hcap]
      constructor
      · intro _
        refine ⟨(v, b), List.mem_cons_self _ _, ?_⟩
        have hone : 1 ≤ pair_hits num_cells ((v, b) :: tl) (num_cells * v + b) := by
          simp only [pair_hits, List.countP_cons]
          simp
        have hMC : 1 ≤ MAX_COUNT := by norm_num [MAX_COUNT]
        dsimp only
        omega
      · intro _
        rfl
    · rw [if_neg hcap, ih]
      have hupd_eq : Function.update g (num_cells * v + b) (g (num_cells * v + b) + 1)
          (num_cells * v + b) = g (num_cells * v + b) + 1 := by
        simp [Function.update_apply]
      have hhits : pair_hits num_cells ((v, b) :: tl) (num_cells * v + b)
          = pair_hits num_cells tl (num_cells * v + b) + 1 := by
        simp [pair_hits, List.countP_cons]
      have hcapn : g (num_cells * v + b) + 1 < MAX_COUNT := by
        have hMC : 2 ≤ MAX_COUNT := by norm_num [MAX_COUNT]
        omega
      constructor
      · rintro ⟨p, hp, hbound⟩
        refine ⟨p, List.mem_cons_of_mem _ hp, ?_⟩
        rcases eq_or_ne (num_cells * p.1 + p.2) (num_cells * v + b) with heq | hne
        · rw [heq] at hbound ⊢
          rw [hupd_eq] at hbound
          rw [hhits]
          omega
        · rw [Function.update_apply, if_neg hne] at hbound
          have hsame : pair_hits num_cells ((v, b) :: tl) (num_cells * p.1 + p.2)
              = pair_hits num_cells tl (num_cells * p.1 + p.2) := by
            simp [pair_hits, List.countP_cons, Ne.symm hne]
          rw [hsame]
          omega
      · rintro ⟨p, hp, hbound⟩
        rcases List.mem_cons.mp hp with heqp | hptl
        · have h1 : p.1 = v := by rw [heqp]
          have h2 : p.2 = b := by rw [heqp]
          rw [h1, h2] at hbound
          rw [hhits] at hbound
          have hpos : 0 < pair_hits num_cells tl (num_cells * v + b) := by
            by_contra h0
            push_neg at h0
            omega
          rw [pair_hits] at hpos
          obtain ⟨q, hq, hqflat⟩ := List.countP_pos_iff.mp hpos
          refine ⟨q, hq, ?_⟩
          have hqe : num_cells * q.1 + q.2 = num_cells * v + b := of_decide_eq_true hqflat
          rw [hqe, hupd_eq]
          omega
        · refine ⟨p, hptl, ?_⟩
          rcases eq_or_ne (num_cells * p.1 + p.2) (num_cells * v + b) with heq | hne
          · rw [heq, hupd_eq]
            rw [heq, hhits] at hbound
            omega
          · rw [Function.update_apply, if_neg hne]
            have hsame : pair_hits num_cells ((v, b) :: tl) (num_cells * p.1 + p.2)
                = pair_hits num_cells tl (num_cells * p.1 + p.2) := by
              simp [pair_hits, List.countP_cons, Ne.symm hne]
            rw [hsame] at hbound
            omega

theorem count_pairs_snd_lt (data : BinarySparseMatrix α) (bmu : List ℕ) (num_cells : ℕ)
    (hnc : 0 < num_cells) (hbmu : ∀ x ∈ bmu, x < num_cells) :
    ∀ p ∈ count_pairs data bmu, p.2 < num_cells := by
  intro p hp
  simp only [count_pairs, List.mem_flatMap, List.mem_map, List.mem_range] at hp
  obtain ⟨row, -, vocab, -, rfl⟩ := hp
  dsimp only
  by_cases hrow : row < bmu.length
  · refine hbmu _ ?_
    rw [List.getD_eq_getElem _ _ hrow]
    exact List.getElem_mem hrow
  · rw [List.getD_eq_default _ _ (not_lt.mp hrow)]
    exact hnc

theorem flat_index_eq_iff (num_cells v b q1 q2 : ℕ) (hnc : 0 < num_cells)
    (hb : b < num_cells) (hq : q2 < num_cells) :
    num_cells * q1 + q2 = num_cells * v + b ↔ q1 = v ∧ q2 = b := by
  constructor
  · intro h
    have h1 : (num_cells * q1 + q2) / num_cells = q1 := by
      rw [Nat.mul_add_div hnc, Nat.div_eq_of_lt hq]
      omega
    have h2 : (num_cells * v + b) / num_cells = v := by
      rw [Nat.mul_add_div hnc, Nat.div_eq_of_lt hb]
      omega
    have hq1v : q1 = v := by rw [← h1, ← h2, h]
    subst hq1v
    exact ⟨rfl, by omega⟩
  · rintro ⟨rfl, rfl⟩
    rfl

/-- C9: count building leaves the best-matching-unit array untouched; it
aborts with the count tensor dropped exactly when some count cell would be
pushed past `2^32 - 2` (i.e. some `(vocab, cell)` pair is hit at least
`MAX_COUNT = 2^32 - 1` times); on success the count at
`numCells * v + BMU` equals the number of visits `(row, v)` with that BMU. -/
theorem C9_build_counts_overflow_aborts_and_counts (data : BinarySparseMatrix α)
    (best_matching_units : List ℕ) (num_cells : ℕ) (hnc : 0 < num_cells)
    (hbmu : ∀ x ∈ best_matching_units, x < num_cells) :
    (SemanticMap_build_counts data best_matching_units num_cells).1 = best_matching_units
    ∧ ((SemanticMap_build_counts data best_matching_units num_cells).2 = none ↔
        ∃ p ∈ count_pairs data best_matching_units,
          MAX_COUNT ≤ pair_hits num_cells (count_pairs data best_matching_units)
            (num_cells * p.1 + p.2))
    ∧ ∀ f, (SemanticMap_build_counts data best_matching_units num_cells).2 = some f →
        ∀ v b, b < num_cells →
          f (num_cells * v + b)
            = (count_pairs data best_matching_units).countP
                fun q => decide (q = (v, b)) := by
  refine ⟨rfl, ?_, ?_⟩
  · have h := build_counts_loop_none_iff num_cells
      (count_pairs data best_matching_units) (fun _ => 0)
    simpa [SemanticMap_build_counts] using h
  · intro f hf v b hb
    have hchar := build_counts_loop_some num_cells
      (count_pairs data best_matching_units) (fun _ => 0) f
      (by simpa [SemanticMap_build_counts] using hf) (num_cells * v + b)
    rw [hchar]
    simp only [Nat.zero_add, pair_hits]
    apply List.countP_congr
    intro q hq
    have hq2 := count_pairs_snd_lt data best_matching_units num_cells hnc hbmu q hq
    simp only [decide_eq_true_eq]
    rw [flat_index_eq_iff num_cells v b q.1 q.2 hnc hb hq2]
    constructor
    · rintro ⟨h1, h2⟩
      exact Prod.ext h1 h2
    · rintro rfl
      exact ⟨rfl, rfl⟩

/-- A 2-row unweighted corpus over a 3-word vocabulary: rows `{0, 2}` and
`{1}`. -/
def c9_corpus : BinarySparseMatrix ℤ :=
  { num_rows := 2, num_cols := 3, index_pointers := [0, 2, 3], indices := [0, 2, 1],
    weights := [], has_weights := false, sum_of_squares := [2, 1] }

/-- Witness for C9 at a concrete input: 2 cells, BMUs `[1, 0]`. -/
theorem C9_build_counts_overflow_aborts_and_counts_witness :
    ((0 : ℕ) < 2 ∧ ∀ x ∈ ([1, 0] : List ℕ), x < 2)
    ∧ ((SemanticMap_build_counts c9_corpus [1, 0] 2).1 = [1, 0]
      ∧ ((SemanticMap_build_counts c9_corpus [1, 0] 2).2 = none ↔
          ∃ p ∈ count_pairs c9_corpus [1, 0],
            MAX_COUNT ≤ pair_hits 2 (count_pairs c9_corpus [1, 0]) (2 * p.1 + p.2))
      ∧ ∀ f, (SemanticMap_build_counts c9_corpus [1, 0] 2).2 = some f →
          ∀ v b, b < 2 →
            f (2 * v + b)
              = (count_pairs c9_corpus [1, 0]).countP fun q => decide (q = (v, b))) :=
  ⟨⟨by decide, by decide⟩,
    C9_build_counts_overflow_aborts_and_counts c9_corpus [1, 0] 2 (by decide) (by decide)⟩

end SemMap
